import Mathlib

/-!
Verification development for the streaming script-execution broker of the
finrobot-webapp backend (file backend/services/script_manager.py).

Modelling conventions (shallow embedding):
  - Python strings are modelled as lists of characters (abbrev Str).
    The Python method str.strip() is modelled by pyStrip, using the six
    ASCII whitespace characters Python strips (wider Unicode whitespace
    is out of scope for the texts this program handles).
  - The asyncio.Queue holds dict events; these are modelled by the
    inductive type Event, with the payload of a result event left as a
    type parameter (the code attaches the returned object unmodified,
    so nothing about its shape is needed).
  - The worker body _runner is modelled as a pure function returning the
    list of events it enqueues, in queue order.  The importlib machinery
    is modelled by an environment of importable modules plus the
    sys.modules cache threaded as explicit state.
  - A script run call is modelled by its observable behaviour: the
    ordered stdout/stderr writes it performs, then a normal return or a
    raised exception.
-/

namespace FinRobotSpec

/-- Python text, modelled as a list of characters. -/
abbrev Str := List Char

/-- The ASCII whitespace characters removed by the Python method str.strip(). -/
def isPySpace (c : Char) : Bool :=
  c = ' ' || c = '\t' || c = '\n' || c = '\r' || c = '\x0b' || c = '\x0c'

/-- Models the Python expression s.strip(): remove leading and trailing whitespace. -/
def pyStrip (s : Str) : Str :=
  (s.dropWhile isPySpace).rdropWhile isPySpace

/-- A buffer is blank when it strips to nothing, that is, the Python test
if s.strip() fails. -/
def isBlank (s : Str) : Bool :=
  (pyStrip s).isEmpty

/-- One event placed on the asyncio.Queue by the worker, as built at
script_manager.py lines 23, 27, 63, 66 and 68.  The payload of a result
event is the object returned by the script, attached unmodified, so it is
a type parameter here. -/
inductive Event (α : Type) where
  | output (kind : String) (text : Str)
  | result (payload : α)
  | error (message : String)
  | exit
deriving DecidableEq

/-- Discriminator for output events. -/
def Event.isOutput {α : Type} : Event α → Bool
  | .output _ _ => true
  | _ => false

/-- Discriminator for result events. -/
def Event.isResult {α : Type} : Event α → Bool
  | .result _ => true
  | _ => false

/-- Discriminator for error events. -/
def Event.isError {α : Type} : Event α → Bool
  | .error _ => true
  | _ => false

/-- Discriminator for the exit sentinel. -/
def Event.isExit {α : Type} : Event α → Bool
  | .exit => true
  | _ => false

/-- State of one _LineEmitter instance (script_manager.py lines 8 to 14):
the stream kind it tags events with, and the internal text buffer.  The
queue it pushes to is represented by returning the pushed events. -/
structure _LineEmitter where
  kind : String
  _buf : Str
deriving DecidableEq

/-- Prepends a character to the first segment of a segment list. -/
def consHead (c : Char) : List Str → List Str
  | [] => [[c]]
  | s :: ss => (c :: s) :: ss

/-- Segments of a buffer between newline characters: the complete lines
in order, then the trailing remainder (possibly empty); the result is
never empty.  This is the sequence of values the repeated call
buf.split(chr 10, 1) of the while loop in write walks through. -/
def splitNl : Str → List Str
  | [] => [[]]
  | c :: rest =>
    if c = '\n' then [] :: splitNl rest
    else consHead c (splitNl rest)

/-- Models the while loop of _LineEmitter.write (script_manager.py lines
20 to 23): while the buffer holds a newline, split off the first line and
the remainder, and emit the line when it is non-blank.  Returns the final
buffer and the events pushed, in push order. -/
def emitLoop {α : Type} (kind : String) (buf : Str) : Str × List (Event α) :=
  if h : '\n' ∈ buf then
    ((emitLoop (α := α) kind ((buf.dropWhile (fun c => c != '\n')).tail)).1,
     (if isBlank (buf.takeWhile (fun c => c != '\n')) then []
      else [Event.output kind (buf.takeWhile (fun c => c != '\n'))]) ++
       (emitLoop (α := α) kind ((buf.dropWhile (fun c => c != '\n')).tail)).2)
  else
    (buf, [])
termination_by buf.length
decreasing_by
  all_goals
    have hne : buf.dropWhile (fun c => c != '\n') ≠ [] := by
      intro h0
      have hall := List.dropWhile_eq_nil_iff.mp h0 '\n' h
      simp at hall
    have h1 : (buf.dropWhile (fun c => c != '\n')).length ≤ buf.length :=
      (List.dropWhile_suffix _).length_le
    obtain ⟨b, t, hbt⟩ := List.exists_cons_of_ne_nil hne
    rw [hbt] at h1 ⊢
    simp only [List.tail_cons, List.length_cons] at h1 ⊢
    omega

/-- Models _LineEmitter.write (script_manager.py lines 16 to 23): append
the incoming text to the buffer, then run the line-splitting loop.  The
isinstance coercion str(s) is not modelled: every write carries text.
The loop is rendered through its net effect on the segment list: every
non-blank complete line is pushed, in order, and the trailing remainder
becomes the new buffer; the theorem write_matches_loop below proves this
equal to the literal while loop emitLoop. -/
def _LineEmitter.write {α : Type} (e : _LineEmitter) (s : Str) :
    _LineEmitter × List (Event α) :=
  ({ e with _buf := (splitNl (e._buf ++ s)).getLastD [] },
   ((splitNl (e._buf ++ s)).dropLast.filter (fun l => !isBlank l)).map
     (Event.output e.kind))

/-- Models _LineEmitter.flush (script_manager.py lines 25 to 28): when the
buffer is non-blank, push one event carrying the stripped buffer; in every
case clear the buffer. -/
def _LineEmitter.flush {α : Type} (e : _LineEmitter) :
    _LineEmitter × List (Event α) :=
  ({ e with _buf := [] },
   if isBlank e._buf then [] else [Event.output e.kind (pyStrip e._buf)])

/-- The two standard streams a script can write to while redirected. -/
inductive StreamKind where
  | stdout
  | stderr
deriving DecidableEq

/-- Exceptions relevant to the worker body: the failure raised by the
call importlib.import_module, the ValueError raised at script_manager.py
line 50, and an arbitrary exception raised by the script itself. -/
inductive PyExc where
  | moduleNotFound (moduleName : String)
  | valueError (msg : String)
  | scriptRaise (excType : String) (msg : String)
deriving DecidableEq

/-- Models the rendering at script_manager.py line 65, the joined output
of traceback.format_exception: the exception type and message; the
frame-by-frame trace text is runtime detail abstracted away. -/
def formatExc : PyExc → String
  | .moduleNotFound m => "ModuleNotFoundError: No module named " ++ m
  | .valueError msg => "ValueError: " ++ msg
  | .scriptRaise ty msg => ty ++ ": " ++ msg

/-- Observable behaviour of one call of a script run entry point: the
stdout/stderr writes it performs while redirected, in order, followed by
a normal return or a raised exception. -/
structure ScriptBehavior (α : Type) where
  writes : List (StreamKind × Str)
  outcome : Except PyExc α

/-- A loaded Python module, reduced to what _runner reads from it: the
result of getattr(module, "run", None).  A missing run attribute and a
non-callable one are both modelled as none, matching the single
callable(run_fn) test at line 49. -/
structure PyModule (π α : Type) where
  run : Option (π → String → ScriptBehavior α)

/-- The environment of importable modules: which dotted module names the
importlib machinery can resolve, and to what module. -/
abbrev ModuleAvail (π α : Type) := String → Option (PyModule π α)

/-- The sys.modules cache threaded through imports. -/
structure ImportState (π α : Type) where
  sysModules : List (String × PyModule π α)

/-- Models importlib.import_module at script_manager.py line 46: a name
already in sys.modules is returned as cached; otherwise the module is
loaded from the environment and cached; an unresolvable name gives none,
standing for the raised ModuleNotFoundError. -/
def loadModule {π α : Type} (avail : ModuleAvail π α) (st : ImportState π α)
    (name : String) : ImportState π α × Option (PyModule π α) :=
  match st.sysModules.lookup name with
  | some m => (st, some m)
  | none =>
    match avail name with
    | some m => ({ sysModules := (name, m) :: st.sysModules }, some m)
    | none => (st, none)

/-- Models the Python expression script_path.replace(chr 47, chr 46):
every slash becomes a dot. -/
def replaceSlashes (s : String) : String :=
  String.mk (s.data.map (fun c => if c = '/' then '.' else c))

/-- Models script_manager.py line 45: the dotted module reference, the
fixed prefix tutorials_wrapper followed by the translated path. -/
def module_path (script_path : String) : String :=
  "tutorials_wrapper." ++ replaceSlashes script_path

/-- The Script Loader steps of _runner (script_manager.py lines 45 to 50):
build the dotted module reference, import it, and fetch the run entry
point; a failed import raises ModuleNotFoundError and a missing or
non-callable entry point raises ValueError. -/
def resolveScript {π α : Type} (avail : ModuleAvail π α) (st : ImportState π α)
    (script_path : String) :
    ImportState π α × Except PyExc (π → String → ScriptBehavior α) :=
  let r := loadModule avail st (module_path script_path)
  match r.2 with
  | none => (r.1, .error (.moduleNotFound (module_path script_path)))
  | some m =>
    match m.run with
    | none =>
      (r.1, .error (.valueError ("script " ++ script_path ++ " missing run(params, lang)")))
    | some f => (r.1, .ok f)

/-- The two framers and the queue contents accumulated while the script
runs under redirect_stdout and redirect_stderr. -/
structure Captured (α : Type) where
  out : _LineEmitter
  err : _LineEmitter
  events : List (Event α)

/-- Routes one captured write to the framer of its stream, appending the
events that framer pushes. -/
def applyWrite {α : Type} (c : Captured α) : StreamKind × Str → Captured α
  | (.stdout, s) =>
    let r := c.out.write (α := α) s
    { out := r.1, err := c.err, events := c.events ++ r.2 }
  | (.stderr, s) =>
    let r := c.err.write (α := α) s
    { out := c.out, err := r.1, events := c.events ++ r.2 }

/-- The initial capture state built at script_manager.py lines 52 to 53:
two fresh framers tagged stdout and stderr, and an empty queue. -/
def initCapture (α : Type) : Captured α :=
  { out := { kind := "stdout", _buf := [] },
    err := { kind := "stderr", _buf := [] },
    events := [] }

/-- Runs all writes the script performs through the two framers, in
order, as the scoped redirection at line 56 does. -/
def captureWrites {α : Type} (ws : List (StreamKind × Str)) : Captured α :=
  ws.foldl applyWrite (initCapture α)

/-- Models the worker body _runner (script_manager.py lines 43 to 68) as
the list of events it enqueues, in queue order, together with the final
state of sys.modules.  The try block loads the script, runs it redirected,
flushes stdout then stderr, and enqueues the result; the except block
catches any exception from loading or from the run call and enqueues one
rendered error; the finally block always enqueues the exit sentinel. -/
def _runner {π α : Type} (avail : ModuleAvail π α) (st : ImportState π α)
    (script_path : String) (params : π) (lang : String) :
    ImportState π α × List (Event α) :=
  let r := resolveScript avail st script_path
  let body : List (Event α) :=
    match r.2 with
    | .error e => [.error (formatExc e)]
    | .ok run_fn =>
      let beh := run_fn params lang
      let c := captureWrites (α := α) beh.writes
      match beh.outcome with
      | .ok v => c.events ++ (c.out.flush (α := α)).2 ++ (c.err.flush (α := α)).2 ++ [.result v]
      | .error e => c.events ++ [.error (formatExc e)]
  (r.1, body ++ [.exit])

/-- Models the consumer loop of run_script_stream (script_manager.py
lines 74 to 79): yield queue events in order and stop right after the
first exit event. -/
def deliver {α : Type} : List (Event α) → List (Event α)
  | [] => []
  | e :: rest => if e.isExit then [e] else e :: deliver rest

/-- Models run_script_stream (script_manager.py lines 31 to 85): the
event sequence delivered to the consumer is the worker queue content up
to and including the first exit sentinel. -/
def run_script_stream {π α : Type} (avail : ModuleAvail π α)
    (st : ImportState π α) (script_path : String) (params : π)
    (lang : String) : List (Event α) :=
  deliver (_runner avail st script_path params lang).2

/-- Modelled from the spec: the final mapping returned by the
non-streaming variant described in spec section 6, holding a result field
and an optional error field.  The repository sources contain no
non-streaming entry point (only run_script_stream exists in
script_manager.py); this type codifies the spec wording. -/
structure SyncResponse (α : Type) where
  result : Option α
  error : Option String
deriving DecidableEq

/-- Modelled from the spec: the alternate non-streaming entry point of
spec section 6, absent from the repository sources.  Per the spec it
performs the same Script Loader and Execution Runner steps synchronously
and returns the final mapping directly to the caller, using no Event
Broker. -/
def run_script {π α : Type} (avail : ModuleAvail π α) (st : ImportState π α)
    (script_path : String) (params : π) (lang : String) :
    ImportState π α × SyncResponse α :=
  let r := resolveScript avail st script_path
  match r.2 with
  | .error e => (r.1, { result := Option.none, error := some (formatExc e) })
  | .ok run_fn =>
    match (run_fn params lang).outcome with
    | .ok v => (r.1, { result := some v, error := Option.none })
    | .error e => (r.1, { result := Option.none, error := some (formatExc e) })

/-- One full lifetime of a Line Framer on one stream: a write of the
whole text followed by the single mandatory flush, giving the events
that reach the queue from that stream. -/
def framerRun {α : Type} (kind : String) (w : Str) : List (Event α) :=
  ((_LineEmitter.write (α := α) { kind := kind, _buf := [] } w).2) ++
    (((_LineEmitter.write (α := α) { kind := kind, _buf := [] } w).1).flush (α := α)).2

/-- Boolean check that an event is an output line of the given stream
whose text is non-empty after trimming. -/
def nonblankOutput {α : Type} (kind : String) : Event α → Bool
  | .output k t => k == kind && !isBlank t
  | _ => false

/-! Concrete environments used by the closed instance theorems below. -/

/-- A script that leaves a non-empty partial line buffered on stdout and
then raises. -/
def availBoom : ModuleAvail Unit Nat := fun n =>
  if n = "tutorials_wrapper.demo.boom" then
    some { run := some (fun _ _ =>
      { writes := [(.stdout, "partial".toList)],
        outcome := .error (.scriptRaise "ValueError" "bad input") }) }
  else none

/-- An environment with no importable modules. -/
def availEmpty : ModuleAvail Unit Nat := fun _ => none

/-- A module lacking a callable run entry point. -/
def modNoRun : PyModule Unit Nat := { run := Option.none }

/-- An environment whose single module lacks a callable run entry point. -/
def availNoRun : ModuleAvail Unit Nat := fun n =>
  if n = "tutorials_wrapper.demo.norun" then some modNoRun else none

/-- A script returning the Python value None, modelled as Option.none. -/
def availNone : ModuleAvail Unit (Option Nat) := fun n =>
  if n = "tutorials_wrapper.demo.none" then
    some { run := some (fun _ _ => { writes := [], outcome := .ok Option.none }) }
  else none

/-- The importable modules under the script root of this repository: the
tutorial script modules of backend/tutorials_wrapper (beginner and
advanced), the helper modules runtime and utils (which expose no run
entry point), and the package root itself.  The behaviour of each script
body is external domain code, out of scope per the spec, and is supplied
through the parameter f. -/
def repoModules {π α : Type} (f : String → π → String → ScriptBehavior α) :
    List (String × PyModule π α) :=
  [("tutorials_wrapper.beginner.agent_annual_report",
    { run := some (f "tutorials_wrapper.beginner.agent_annual_report") }),
   ("tutorials_wrapper.beginner.agent_fingpt_forecaster",
    { run := some (f "tutorials_wrapper.beginner.agent_fingpt_forecaster") }),
   ("tutorials_wrapper.beginner.agent_rag_earnings_call_sec_filings",
    { run := some (f "tutorials_wrapper.beginner.agent_rag_earnings_call_sec_filings") }),
   ("tutorials_wrapper.beginner.agent_rag_qa",
    { run := some (f "tutorials_wrapper.beginner.agent_rag_qa") }),
   ("tutorials_wrapper.beginner.ollama_function_call",
    { run := some (f "tutorials_wrapper.beginner.ollama_function_call") }),
   ("tutorials_wrapper.beginner.ollama_stock_chart",
    { run := some (f "tutorials_wrapper.beginner.ollama_stock_chart") }),
   ("tutorials_wrapper.beginner.sma_strategy",
    { run := some (f "tutorials_wrapper.beginner.sma_strategy") }),
   ("tutorials_wrapper.advanced.agent_annual_report",
    { run := some (f "tutorials_wrapper.advanced.agent_annual_report") }),
   ("tutorials_wrapper.advanced.agent_fingpt_forecaster",
    { run := some (f "tutorials_wrapper.advanced.agent_fingpt_forecaster") }),
   ("tutorials_wrapper.advanced.agent_trade_strategist",
    { run := some (f "tutorials_wrapper.advanced.agent_trade_strategist") }),
   ("tutorials_wrapper.advanced.lmm_agent_opt_smacross",
    { run := some (f "tutorials_wrapper.advanced.lmm_agent_opt_smacross") }),
   ("tutorials_wrapper.runtime", { run := Option.none }),
   ("tutorials_wrapper.utils", { run := Option.none }),
   ("tutorials_wrapper", { run := Option.none })]

/-- The import environment of this repository: a dotted name resolves to
the matching module of the script root, and to nothing otherwise. -/
def repoAvail {π α : Type} (f : String → π → String → ScriptBehavior α) :
    ModuleAvail π α := fun n => (repoModules f).lookup n

/-! Equivalence of the segment view of write with the literal while
loop emitLoop. -/

theorem splitNl_ne_nil (s : Str) : splitNl s ≠ [] := by
  cases s with
  | nil => simp [splitNl]
  | cons c rest =>
    by_cases hc : c = '\n'
    · simp [splitNl, hc]
    · simp only [splitNl, if_neg hc]
      cases splitNl rest <;> simp [consHead]

theorem splitNl_of_no_newline {s : Str} (h : '\n' ∉ s) : splitNl s = [s] := by
  induction s with
  | nil => rfl
  | cons c rest ih =>
    have hc : c ≠ '\n' := fun hc => h (hc ▸ List.mem_cons_self c rest)
    have hr : '\n' ∉ rest := fun hr => h (List.mem_cons_of_mem c hr)
    simp only [splitNl, if_neg hc, ih hr, consHead]

theorem splitNl_append_newline {a : Str} (b : Str) (h : '\n' ∉ a) :
    splitNl (a ++ '\n' :: b) = a :: splitNl b := by
  induction a with
  | nil => simp [splitNl]
  | cons c a ih =>
    have hc : c ≠ '\n' := fun hc => h (hc ▸ List.mem_cons_self c a)
    have ha : '\n' ∉ a := fun ha => h (List.mem_cons_of_mem c ha)
    simp only [List.cons_append, splitNl, if_neg hc, List.append_eq]
    rw [ih ha]
    rfl

theorem head?_dropWhile_false {α : Type} (p : α → Bool) (l : List α) (a : α)
    (h : (l.dropWhile p).head? = some a) : p a = false := by
  induction l with
  | nil => simp [List.dropWhile] at h
  | cons c rest ih =>
    by_cases hc : p c
    · rw [List.dropWhile_cons, if_pos hc] at h
      exact ih h
    · rw [List.dropWhile_cons, if_neg hc] at h
      simp only [List.head?_cons, Option.some.injEq] at h
      rw [← h]
      exact Bool.eq_false_iff.mpr hc

/-- Decomposition of a buffer at its first newline: the part the loop
emits as a line, the newline, and the remainder it keeps working on. -/
theorem buf_decomp {buf : Str} (h : '\n' ∈ buf) :
    buf = buf.takeWhile (fun c => c != '\n') ++
      '\n' :: (buf.dropWhile (fun c => c != '\n')).tail ∧
    '\n' ∉ buf.takeWhile (fun c => c != '\n') := by
  have hne : buf.dropWhile (fun c => c != '\n') ≠ [] := by
    intro h0
    have := List.dropWhile_eq_nil_iff.mp h0 '\n' h
    simp at this
  obtain ⟨x, xs, hx⟩ := List.exists_cons_of_ne_nil hne
  have hx' : x = '\n' := by
    have := head?_dropWhile_false (fun c => c != '\n') buf x (by rw [hx]; rfl)
    simpa using this
  constructor
  · conv_lhs => rw [← List.takeWhile_append_dropWhile (fun c => c != '\n') buf]
    rw [hx, hx']
    simp
  · intro hmem
    have := List.mem_takeWhile_imp hmem
    simp at this

/-- The while loop of write, expressed through the segment list: the
final buffer is the trailing remainder, and the events are exactly the
non-blank complete lines, in order, each tagged with the stream kind. -/
theorem emitLoop_eq {α : Type} (kind : String) (buf : Str) :
    emitLoop (α := α) kind buf =
      ((splitNl buf).getLastD [],
       ((splitNl buf).dropLast.filter (fun l => !isBlank l)).map
         (Event.output kind)) := by
  suffices H : ∀ (n : ℕ) (b : Str), b.length ≤ n →
      emitLoop (α := α) kind b =
        ((splitNl b).getLastD [],
         ((splitNl b).dropLast.filter (fun l => !isBlank l)).map
           (Event.output kind)) from H buf.length buf le_rfl
  intro n
  induction n with
  | zero =>
    intro b hb
    have hbnil : b = [] := List.eq_nil_of_length_eq_zero (Nat.le_zero.mp hb)
    subst hbnil
    rw [emitLoop]
    simp [splitNl]
  | succ n ih =>
    intro b hb
    by_cases h : '\n' ∈ b
    · obtain ⟨hbuf, hline⟩ := buf_decomp h
      have hrest_len : ((b.dropWhile (fun c => c != '\n')).tail).length < b.length := by
        have hne : b.dropWhile (fun c => c != '\n') ≠ [] := by
          intro h0
          have hall := List.dropWhile_eq_nil_iff.mp h0 '\n' h
          simp at hall
        have h1 : (b.dropWhile (fun c => c != '\n')).length ≤ b.length :=
          (List.dropWhile_suffix _).length_le
        obtain ⟨x0, t0, hbt⟩ := List.exists_cons_of_ne_nil hne
        rw [hbt] at h1 ⊢
        simp only [List.tail_cons, List.length_cons] at h1 ⊢
        omega
      rw [emitLoop, dif_pos h, ih _ (by omega)]
      have hsplit : splitNl b =
          b.takeWhile (fun c => c != '\n') ::
            splitNl ((b.dropWhile (fun c => c != '\n')).tail) := by
        conv_lhs => rw [hbuf]
        exact splitNl_append_newline _ hline
      rw [hsplit]
      obtain ⟨x, xs, hx⟩ :=
        List.exists_cons_of_ne_nil (splitNl_ne_nil ((b.dropWhile (fun c => c != '\n')).tail))
      rw [hx]
      by_cases hbk : isBlank (b.takeWhile (fun c => c != '\n'))
      · simp [List.dropLast, List.getLastD_cons, List.filter_cons, hbk]
      · simp [List.dropLast, List.getLastD_cons, List.filter_cons, hbk]
    · rw [emitLoop, dif_neg h, splitNl_of_no_newline h]
      simp

/-- Validation of the segment rendering of write against the literal
while loop: appending the incoming text and running the loop gives
exactly the buffer and events write produces. -/
theorem write_matches_loop {α : Type} (e : _LineEmitter) (s : Str) :
    e.write (α := α) s =
      ({ kind := e.kind, _buf := (emitLoop (α := α) e.kind (e._buf ++ s)).1 },
       (emitLoop (α := α) e.kind (e._buf ++ s)).2) := by
  rw [emitLoop_eq]
  rfl

/-! Shared lemmas about the shapes of the worker queue. -/

theorem Event.isOutput_not_others {α : Type} (ev : Event α)
    (h : ev.isOutput = true) :
    ev.isExit = false ∧ ev.isResult = false ∧ ev.isError = false := by
  cases ev <;> simp_all [Event.isOutput, Event.isExit, Event.isResult, Event.isError]

theorem write_all_output {α : Type} (e : _LineEmitter) (s : Str) :
    ∀ ev ∈ (e.write (α := α) s).2, ev.isOutput = true := by
  intro ev hev
  simp only [_LineEmitter.write, List.mem_map] at hev
  obtain ⟨l, _, hl⟩ := hev
  rw [← hl]
  rfl

theorem flush_all_output {α : Type} (e : _LineEmitter) :
    ∀ ev ∈ (e.flush (α := α)).2, ev.isOutput = true := by
  intro ev hev
  simp only [_LineEmitter.flush] at hev
  by_cases hb : isBlank e._buf
  · rw [if_pos hb] at hev
    exact absurd hev (List.not_mem_nil ev)
  · rw [if_neg hb] at hev
    rw [List.mem_singleton.mp hev]
    rfl

theorem foldl_applyWrite_all_output {α : Type} (ws : List (StreamKind × Str))
    (c : Captured α) (hc : ∀ ev ∈ c.events, ev.isOutput = true) :
    ∀ ev ∈ (ws.foldl applyWrite c).events, ev.isOutput = true := by
  induction ws generalizing c with
  | nil => exact hc
  | cons w ws ih =>
    obtain ⟨k, s⟩ := w
    cases k with
    | stdout =>
      refine ih _ ?_
      intro ev hev
      simp only [applyWrite, List.mem_append] at hev
      rcases hev with hev | hev
      · exact hc ev hev
      · exact write_all_output _ _ ev hev
    | stderr =>
      refine ih _ ?_
      intro ev hev
      simp only [applyWrite, List.mem_append] at hev
      rcases hev with hev | hev
      · exact hc ev hev
      · exact write_all_output _ _ ev hev

theorem captureWrites_all_output {α : Type} (ws : List (StreamKind × Str)) :
    ∀ ev ∈ (captureWrites (α := α) ws).events, ev.isOutput = true := by
  refine foldl_applyWrite_all_output ws (initCapture α) ?_
  intro ev hev
  exact absurd hev (List.not_mem_nil ev)

/-- Case analysis of the worker body: the three completion paths of the
try/except/finally in _runner and the exact queue contents on each. -/
theorem runner_cases {π α : Type} (avail : ModuleAvail π α)
    (st : ImportState π α) (p : String) (params : π) (lang : String) :
    (∃ e, (resolveScript avail st p).2 = .error e ∧
      (_runner avail st p params lang).2 = [.error (formatExc e), .exit]) ∨
    (∃ f v, (resolveScript avail st p).2 = .ok f ∧
      (f params lang).outcome = .ok v ∧
      (_runner avail st p params lang).2 =
        (captureWrites (α := α) (f params lang).writes).events ++
        ((captureWrites (α := α) (f params lang).writes).out.flush).2 ++
        ((captureWrites (α := α) (f params lang).writes).err.flush).2 ++
        [.result v, .exit]) ∨
    (∃ f e, (resolveScript avail st p).2 = .ok f ∧
      (f params lang).outcome = .error e ∧
      (_runner avail st p params lang).2 =
        (captureWrites (α := α) (f params lang).writes).events ++
        [.error (formatExc e), .exit]) := by
  rcases hres : (resolveScript avail st p).2 with e | f
  · left
    exact ⟨e, rfl, by simp [_runner, hres]⟩
  · rcases hout : (f params lang).outcome with e | v
    · right; right
      exact ⟨f, e, rfl, hout, by simp [_runner, hres, hout]⟩
    · right; left
      exact ⟨f, v, rfl, hout, by simp [_runner, hres, hout]⟩

theorem deliver_no_exit_append {α : Type} (l : List (Event α))
    (h : ∀ ev ∈ l, ev.isExit = false) :
    deliver (l ++ [Event.exit]) = l ++ [Event.exit] := by
  induction l with
  | nil => rfl
  | cons e rest ih =>
    have he : e.isExit = false := h e (List.mem_cons_self e rest)
    simp only [List.cons_append, deliver, he, List.append_eq]
    rw [if_neg (by simp [he])]
    rw [ih (fun ev hev => h ev (List.mem_cons_of_mem e hev))]

/-- The consumer receives exactly the queue contents: the worker puts the
exit sentinel last and only once, so the break-on-exit loop delivers the
whole queue. -/
theorem stream_eq_runner {π α : Type} (avail : ModuleAvail π α)
    (st : ImportState π α) (p : String) (params : π) (lang : String) :
    run_script_stream avail st p params lang =
      (_runner avail st p params lang).2 := by
  rcases runner_cases avail st p params lang with
    ⟨e, _, hr⟩ | ⟨f, v, _, _, hr⟩ | ⟨f, e, _, _, hr⟩
  · rw [run_script_stream, hr]
    have : ([Event.error (formatExc e), Event.exit] : List (Event α)) =
        [Event.error (formatExc e)] ++ [Event.exit] := rfl
    rw [this]
    refine deliver_no_exit_append _ ?_
    intro ev hev
    rw [List.mem_singleton.mp hev]
    rfl
  · rw [run_script_stream, hr]
    have hsh :
        (captureWrites (α := α) (f params lang).writes).events ++
          ((captureWrites (α := α) (f params lang).writes).out.flush).2 ++
          ((captureWrites (α := α) (f params lang).writes).err.flush).2 ++
          [Event.result v, Event.exit] =
        ((captureWrites (α := α) (f params lang).writes).events ++
          ((captureWrites (α := α) (f params lang).writes).out.flush).2 ++
          ((captureWrites (α := α) (f params lang).writes).err.flush).2 ++
          [Event.result v]) ++ [Event.exit] := by
      simp [List.append_assoc]
    rw [hsh]
    refine deliver_no_exit_append _ ?_
    intro ev hev
    simp only [List.mem_append] at hev
    rcases hev with ((hev | hev) | hev) | hev
    · exact (Event.isOutput_not_others ev (captureWrites_all_output _ ev hev)).1
    · exact (Event.isOutput_not_others ev (flush_all_output _ ev hev)).1
    · exact (Event.isOutput_not_others ev (flush_all_output _ ev hev)).1
    · rw [List.mem_singleton.mp hev]
      rfl
  · rw [run_script_stream, hr]
    have hsh :
        (captureWrites (α := α) (f params lang).writes).events ++
          [Event.error (formatExc e), Event.exit] =
        ((captureWrites (α := α) (f params lang).writes).events ++
          [Event.error (formatExc e)]) ++ [Event.exit] := by
      simp [List.append_assoc]
    rw [hsh]
    refine deliver_no_exit_append _ ?_
    intro ev hev
    simp only [List.mem_append] at hev
    rcases hev with hev | hev
    · exact (Event.isOutput_not_others ev (captureWrites_all_output _ ev hev)).1
    · rw [List.mem_singleton.mp hev]
      rfl

theorem countP_zero_of_all_output {α : Type} (l : List (Event α))
    (h : ∀ ev ∈ l, ev.isOutput = true) :
    l.countP Event.isExit = 0 ∧ l.countP Event.isResult = 0 ∧
      l.countP Event.isError = 0 := by
  refine ⟨List.countP_eq_zero.mpr ?_, List.countP_eq_zero.mpr ?_,
    List.countP_eq_zero.mpr ?_⟩ <;>
    intro ev hev <;>
    have h3 := Event.isOutput_not_others ev (h ev hev) <;>
    simp_all

theorem getLast?_append_pair {α : Type} (l : List α) (a b : α) :
    (l ++ [a, b]).getLast? = some b := by
  have hsh : l ++ [a, b] = (l ++ [a]) ++ [b] := by simp
  rw [hsh]
  exact List.getLast?_concat _

/-- Claim C1: every event sequence delivered by run_script_stream has the
exit sentinel as its last event and as its only exit event, and carries
exactly one result event or exactly one error event, never both and never
neither, on every completion path: normal return, return of None, a raise
from the script, or a loader failure. -/
theorem stream_terminal_shape {π α : Type} (avail : ModuleAvail π α)
    (st : ImportState π α) (p : String) (params : π) (lang : String) :
    (run_script_stream avail st p params lang).getLast? = some Event.exit ∧
    (run_script_stream avail st p params lang).countP Event.isExit = 1 ∧
    (run_script_stream avail st p params lang).countP Event.isResult +
      (run_script_stream avail st p params lang).countP Event.isError = 1 := by
  rw [stream_eq_runner]
  rcases runner_cases avail st p params lang with
    ⟨e, _, hr⟩ | ⟨f, v, _, _, hr⟩ | ⟨f, e, _, _, hr⟩ <;> rw [hr]
  · refine ⟨rfl, ?_, ?_⟩ <;>
      simp [List.countP_cons, Event.isExit, Event.isResult, Event.isError]
  · obtain ⟨hz1, hz2, hz3⟩ :=
      countP_zero_of_all_output _ (captureWrites_all_output (α := α) (f params lang).writes)
    obtain ⟨ho1, ho2, ho3⟩ := countP_zero_of_all_output _
      (flush_all_output (α := α) (captureWrites (α := α) (f params lang).writes).out)
    obtain ⟨he1, he2, he3⟩ := countP_zero_of_all_output _
      (flush_all_output (α := α) (captureWrites (α := α) (f params lang).writes).err)
    refine ⟨?_, ?_, ?_⟩
    · rw [List.append_assoc, List.append_assoc]
      rw [show ((captureWrites (α := α) (f params lang).writes).out.flush).2 ++
            (((captureWrites (α := α) (f params lang).writes).err.flush).2 ++
              [Event.result v, Event.exit]) =
          (((captureWrites (α := α) (f params lang).writes).out.flush).2 ++
            ((captureWrites (α := α) (f params lang).writes).err.flush).2) ++
            [Event.result v, Event.exit] from by simp]
      rw [← List.append_assoc]
      exact getLast?_append_pair _ _ _
    · simp [List.countP_append, hz1, ho1, he1, List.countP_cons,
        Event.isExit, Event.isResult]
    · simp [List.countP_append, hz2, hz3, ho2, ho3, he2, he3, List.countP_cons,
        Event.isExit, Event.isResult, Event.isError]
  · obtain ⟨hz1, hz2, hz3⟩ :=
      countP_zero_of_all_output _ (captureWrites_all_output (α := α) (f params lang).writes)
    refine ⟨?_, ?_, ?_⟩
    · exact getLast?_append_pair _ _ _
    · simp [List.countP_append, hz1, List.countP_cons, Event.isExit, Event.isError]
    · simp [List.countP_append, hz2, hz3, List.countP_cons,
        Event.isExit, Event.isResult, Event.isError]

theorem dropWhile_eq_self_of_prefix {α : Type} {p : α → Bool} {u v : List α}
    (hu : u.dropWhile p = u) (hv : v <+: u) : v.dropWhile p = v := by
  cases v with
  | nil => rfl
  | cons x xs =>
    obtain ⟨r, hr⟩ := hv
    have hx : p x = false := by
      by_contra hpx
      have hpx' : p x = true := Bool.of_not_eq_false hpx
      rw [← hr] at hu
      rw [List.cons_append, List.dropWhile_cons, if_pos hpx'] at hu
      have hle := (List.dropWhile_suffix (l := xs ++ r) p).length_le
      rw [hu] at hle
      simp at hle
    rw [List.dropWhile_cons, if_neg (by simp [hx])]

theorem pyStrip_idem (s : Str) : pyStrip (pyStrip s) = pyStrip s := by
  unfold pyStrip
  have h1 : (s.dropWhile isPySpace).dropWhile isPySpace = s.dropWhile isPySpace :=
    List.dropWhile_idempotent _ _
  have h2 : ((s.dropWhile isPySpace).rdropWhile isPySpace).dropWhile isPySpace =
      (s.dropWhile isPySpace).rdropWhile isPySpace :=
    dropWhile_eq_self_of_prefix h1 (List.rdropWhile_prefix _ _)
  rw [h2, List.rdropWhile_idempotent]

theorem isBlank_pyStrip (s : Str) : isBlank (pyStrip s) = isBlank s := by
  unfold isBlank
  rw [pyStrip_idem]

theorem not_mem_of_all_output {α : Type} (l : List (Event α))
    (h : ∀ ev ∈ l, ev.isOutput = true) :
    (∀ v : α, Event.result v ∉ l) ∧ (∀ m : String, Event.error m ∉ l) ∧
      Event.exit ∉ l := by
  refine ⟨?_, ?_, ?_⟩
  · intro v hv
    have := h _ hv
    simp [Event.isOutput] at this
  · intro m hm
    have := h _ hm
    simp [Event.isOutput] at this
  · intro hx
    have := h _ hx
    simp [Event.isOutput] at this

/-- Claim C4: loading fails with a ModuleNotFoundError when the module
reference cannot be resolved and with a ValueError when the resolved
module lacks a callable run entry point; each failure reaches the
consumer as one error event followed by the exit sentinel, with no output
events produced by the loader. -/
theorem loader_failure_surfaces_error {π α : Type} (avail : ModuleAvail π α)
    (st : ImportState π α) (p : String) (params : π) (lang : String) :
    ((loadModule avail st (module_path p)).2 = none →
      run_script_stream avail st p params lang =
        [Event.error (formatExc (PyExc.moduleNotFound (module_path p))),
         Event.exit]) ∧
    (∀ m : PyModule π α,
      (loadModule avail st (module_path p)).2 = some m → m.run = Option.none →
      run_script_stream avail st p params lang =
        [Event.error (formatExc (PyExc.valueError
           ("script " ++ p ++ " missing run(params, lang)"))),
         Event.exit]) := by
  constructor
  · intro hload
    rw [stream_eq_runner]
    simp [_runner, resolveScript, hload]
  · intro m hload hrun
    rw [stream_eq_runner]
    simp [_runner, resolveScript, hload, hrun]

theorem loader_failure_surfaces_error_witness :
    run_script_stream availEmpty ⟨[]⟩ "nope/nope" () "en" =
      [Event.error (formatExc (PyExc.moduleNotFound (module_path "nope/nope"))),
       Event.exit] ∧
    run_script_stream availNoRun ⟨[]⟩ "demo/norun" () "en" =
      [Event.error (formatExc (PyExc.valueError
         ("script " ++ "demo/norun" ++ " missing run(params, lang)"))),
       Event.exit] :=
  ⟨(loader_failure_surfaces_error availEmpty ⟨[]⟩ "nope/nope" () "en").1 rfl,
   (loader_failure_surfaces_error availNoRun ⟨[]⟩ "demo/norun" () "en").2
     modNoRun rfl rfl⟩

/-- Claim C8: resolving the same script path twice is idempotent: the
second resolution returns the same entry point (the module is served from
the sys.modules cache) and leaves the import state unchanged, so
resolution has no invocation-order side effects. -/
theorem loader_idempotent {π α : Type} (avail : ModuleAvail π α)
    (st : ImportState π α) (p : String) :
    (resolveScript avail (resolveScript avail st p).1 p).2 =
      (resolveScript avail st p).2 ∧
    (resolveScript avail (resolveScript avail st p).1 p).1 =
      (resolveScript avail st p).1 := by
  rcases hl : st.sysModules.lookup (module_path p) with _ | m
  · rcases ha : avail (module_path p) with _ | m
    · constructor <;> simp [resolveScript, loadModule, hl, ha]
    · have hl2 : List.lookup (module_path p)
          ((module_path p, m) :: st.sysModules) = some m := by
        simp [List.lookup_cons]
      cases hr : m.run with
      | none =>
        constructor <;>
          simp [resolveScript, loadModule, hl, ha, hl2, hr]
      | some f =>
        constructor <;>
          simp [resolveScript, loadModule, hl, ha, hl2, hr]
  · cases hr : m.run with
    | none =>
      constructor <;> simp [resolveScript, loadModule, hl, hr]
    | some f =>
      constructor <;> simp [resolveScript, loadModule, hl, hr]

/-- Claim C2, counterexample: a script writes the non-empty partial line
partial to stdout (no newline) and then raises; the delivered stream
holds no output event at all, only the error and the exit sentinel, so
the framers are not flushed before the error event and the trailing
partial line is dropped on the fault path. -/
theorem flush_on_fault_counterexample :
    run_script_stream availBoom ⟨[]⟩ "demo/boom" () "en" =
      [Event.error "ValueError: bad input", Event.exit] ∧
    (run_script_stream availBoom ⟨[]⟩ "demo/boom" () "en").countP
      Event.isOutput = 0 := by
  constructor <;> decide

/-- Claim C2 as amended: the Execution Runner flushes both framers, in
stdout-then-stderr order, before the terminal event on the success path
only; on a fault raised by the entry point the error event is enqueued
directly after the events already written, with no flush, and on a loader
fault no framer exists at all, so a trailing partial line is emitted only
when the run returns normally. -/
theorem runner_flush_only_on_success {π α : Type} (avail : ModuleAvail π α)
    (st : ImportState π α) (p : String) (params : π) (lang : String)
    (f : π → String → ScriptBehavior α)
    (hres : (resolveScript avail st p).2 = .ok f) :
    (∀ v : α, (f params lang).outcome = .ok v →
      (_runner avail st p params lang).2 =
        (captureWrites (α := α) (f params lang).writes).events ++
          ((captureWrites (α := α) (f params lang).writes).out.flush).2 ++
          ((captureWrites (α := α) (f params lang).writes).err.flush).2 ++
          [Event.result v, Event.exit]) ∧
    (∀ e : PyExc, (f params lang).outcome = .error e →
      (_runner avail st p params lang).2 =
        (captureWrites (α := α) (f params lang).writes).events ++
          [Event.error (formatExc e), Event.exit]) := by
  constructor
  · intro v hout
    simp [_runner, hres, hout]
  · intro e hout
    simp [_runner, hres, hout]

theorem runner_flush_only_on_success_witness :
    (_runner availBoom ⟨[]⟩ "demo/boom" () "en").2 =
      (captureWrites (α := Nat) [(.stdout, "partial".toList)]).events ++
        [Event.error (formatExc (.scriptRaise "ValueError" "bad input")),
         Event.exit] :=
  (runner_flush_only_on_success availBoom ⟨[]⟩ "demo/boom" () "en"
    (fun _ _ =>
      { writes := [(.stdout, "partial".toList)],
        outcome := .error (.scriptRaise "ValueError" "bad input") }) rfl).2
    (.scriptRaise "ValueError" "bad input") rfl

/-- Claim C10: on the success path the result event carries exactly the
value the run entry point returned, with no validation, copy or
transformation at the runner boundary; the stream holds that one result
event and no other. -/
theorem result_payload_exact {π α : Type} (avail : ModuleAvail π α)
    (st : ImportState π α) (p : String) (params : π) (lang : String)
    (f : π → String → ScriptBehavior α) (v : α)
    (hres : (resolveScript avail st p).2 = .ok f)
    (hout : (f params lang).outcome = .ok v) :
    Event.result v ∈ run_script_stream avail st p params lang ∧
    (run_script_stream avail st p params lang).countP Event.isResult = 1 ∧
    ∀ w : α, Event.result w ∈ run_script_stream avail st p params lang →
      w = v := by
  rw [stream_eq_runner]
  rcases runner_cases avail st p params lang with
    ⟨e, hres2, hr⟩ | ⟨f2, v2, hres2, hout2, hr⟩ | ⟨f2, e2, hres2, hout2, hr⟩
  · rw [hres2] at hres
    exact absurd hres (by simp)
  · rw [hres2] at hres
    have hf : f2 = f := by
      simp only [Except.ok.injEq] at hres
      exact hres
    subst hf
    rw [hout2] at hout
    have hv : v2 = v := by
      simp only [Except.ok.injEq] at hout
      exact hout
    subst hv
    rw [hr]
    obtain ⟨hz1, hz2, hz3⟩ :=
      countP_zero_of_all_output _ (captureWrites_all_output (α := α) (f2 params lang).writes)
    obtain ⟨ho1, ho2, ho3⟩ := countP_zero_of_all_output _
      (flush_all_output (α := α) (captureWrites (α := α) (f2 params lang).writes).out)
    obtain ⟨he1, he2, he3⟩ := countP_zero_of_all_output _
      (flush_all_output (α := α) (captureWrites (α := α) (f2 params lang).writes).err)
    refine ⟨?_, ?_, ?_⟩
    · simp
    · simp [List.countP_append, hz2, ho2, he2, List.countP_cons,
        Event.isResult, Event.isExit]
    · intro w hw
      simp only [List.mem_append] at hw
      rcases hw with ((hw | hw) | hw) | hw
      · exact absurd hw ((not_mem_of_all_output _
          (captureWrites_all_output (α := α) (f2 params lang).writes)).1 w)
      · exact absurd hw ((not_mem_of_all_output _
          (flush_all_output (α := α) (captureWrites (α := α) (f2 params lang).writes).out)).1 w)
      · exact absurd hw ((not_mem_of_all_output _
          (flush_all_output (α := α) (captureWrites (α := α) (f2 params lang).writes).err)).1 w)
      · simp only [List.mem_cons, List.mem_singleton] at hw
        rcases hw with hw | hw
        · exact Event.result.inj hw
        · exact absurd hw (by simp)
  · rw [hres2] at hres
    have hf : f2 = f := by
      simp only [Except.ok.injEq] at hres
      exact hres
    subst hf
    rw [hout2] at hout
    exact absurd hout (by simp)

theorem result_payload_exact_witness :
    Event.result (Option.none : Option Nat) ∈
      run_script_stream availNone ⟨[]⟩ "demo/none" () "en" ∧
    (run_script_stream availNone ⟨[]⟩ "demo/none" () "en").countP
      Event.isResult = 1 :=
  ⟨(result_payload_exact availNone ⟨[]⟩ "demo/none" () "en"
      (fun _ _ => { writes := [], outcome := .ok Option.none })
      Option.none rfl rfl).1,
   (result_payload_exact availNone ⟨[]⟩ "demo/none" () "en"
      (fun _ _ => { writes := [], outcome := .ok Option.none })
      Option.none rfl rfl).2.1⟩

theorem lookup_eq_none_of_ne_keys {β : Type} (l : List (String × β))
    (n : String) (h : ∀ k ∈ l.map Prod.fst, n ≠ k) : l.lookup n = none := by
  induction l with
  | nil => rfl
  | cons kv rest ih =>
    obtain ⟨k, v⟩ := kv
    have hk : n ≠ k := h k (by simp)
    rw [List.lookup_cons]
    rw [show (n == k) = false from beq_eq_false_iff_ne.mpr hk]
    exact ih (fun k2 hk2 => h k2 (List.mem_cons_of_mem _ hk2))

/-- Claim C5: the constructed module reference always consists of the
fixed prefix tutorials_wrapper followed by a dot and the slash-to-dot
translation of the caller-supplied path, so resolution only ever consults
module names under the script root (it is insensitive to what modules
exist outside that root), and every path containing a dot-dot traversal
sequence fails with ModuleNotFoundError against the importable modules of
this repository. -/
theorem loader_confined_to_script_root {π α : Type} :
    (∀ p : String, module_path p = "tutorials_wrapper." ++ replaceSlashes p) ∧
    (∀ (a b : ModuleAvail π α) (st : ImportState π α) (p : String),
      (∀ m : String, (∃ q, m = "tutorials_wrapper." ++ q) → a m = b m) →
      (resolveScript a st p).2 = (resolveScript b st p).2) ∧
    (∀ (f : String → π → String → ScriptBehavior α) (p : String),
      ['.', '.'] <:+: p.data →
      (resolveScript (repoAvail f) ⟨[]⟩ p).2 =
        .error (.moduleNotFound (module_path p))) := by
  refine ⟨fun p => rfl, ?_, ?_⟩
  · intro a b st p hab
    have h := hab (module_path p) ⟨replaceSlashes p, rfl⟩
    simp only [resolveScript, loadModule, h]
  · intro f p hdots
    have hmap : ['.', '.'] <:+: (replaceSlashes p).data := by
      have h1 := List.IsInfix.map (fun c => if c = '/' then '.' else c) hdots
      simpa [replaceSlashes] using h1
    have hmp : ['.', '.'] <:+: (module_path p).data := by
      rw [module_path, String.data_append]
      exact hmap.trans (List.suffix_append _ _).isInfix
    have hnone : repoAvail (π := π) (α := α) f (module_path p) = none := by
      refine lookup_eq_none_of_ne_keys _ _ ?_
      intro k hk
      simp only [repoModules, List.map, List.mem_cons, List.not_mem_nil,
        or_false] at hk
      rcases hk with rfl | rfl | rfl | rfl | rfl | rfl | rfl | rfl | rfl |
        rfl | rfl | rfl | rfl | rfl <;>
        exact fun he => absurd (he ▸ hmp) (by decide)
    simp [resolveScript, loadModule, hnone]

theorem loader_confined_to_script_root_witness :
    module_path "../../etc/passwd" =
      "tutorials_wrapper." ++ replaceSlashes "../../etc/passwd" ∧
    (resolveScript
        (repoAvail (π := Unit) (α := Nat)
          (fun _ _ _ => { writes := [], outcome := .ok 0 }))
        ⟨[]⟩ "../../etc/passwd").2 =
      .error (.moduleNotFound (module_path "../../etc/passwd")) :=
  ⟨(loader_confined_to_script_root (π := Unit) (α := Nat)).1 "../../etc/passwd",
   (loader_confined_to_script_root (π := Unit) (α := Nat)).2.2
     (fun _ _ _ => { writes := [], outcome := .ok 0 }) "../../etc/passwd"
     (by decide)⟩

/-- Claim C6: a write call appends the incoming text to the internal
buffer and runs the newline loop: for each newline in the buffer the line
before it becomes one output event exactly when it is non-empty after
trimming, and the remainder stays buffered; consequently consecutive
writes without an intervening newline coalesce, so writing a then
b-newline yields exactly the single output event ab, not two events. -/
theorem write_line_framing {α : Type} :
    (∀ (e : _LineEmitter) (s : Str),
      e.write (α := α) s =
        ({ kind := e.kind, _buf := (emitLoop (α := α) e.kind (e._buf ++ s)).1 },
         (emitLoop (α := α) e.kind (e._buf ++ s)).2)) ∧
    ((_LineEmitter.write (α := α) { kind := "stdout", _buf := [] } ['a']).2 = [] ∧
     ((_LineEmitter.write (α := α) { kind := "stdout", _buf := [] }
        ['a']).1.write (α := α) ['b', '\n']).2 =
       [Event.output "stdout" ['a', 'b']]) := by
  refine ⟨fun e s => write_matches_loop e s, rfl, rfl⟩

/-- Claim C3, counterexample: writing the two characters x-space with no
newline and then flushing emits the stripped text x, not the verbatim
buffered text, so the emitted lines are not exactly the non-blank lines
of the original text: the trailing unterminated line is also trimmed,
which is an alteration beyond blank-line suppression. -/
theorem framer_reconstruction_counterexample :
    framerRun (α := Nat) "stdout" ['x', ' '] ≠
      ((splitNl ['x', ' ']).filter (fun l => !isBlank l)).map
        (Event.output "stdout") ∧
    framerRun (α := Nat) "stdout" ['x', ' '] =
      [Event.output "stdout" ['x']] := by
  constructor <;> decide

/-- Claim C3 as amended: every emitted output event is non-empty after
trimming, and the emitted texts are exactly the non-blank complete lines
of the written text, in order and verbatim, followed by the trailing
unterminated line stripped of surrounding whitespace when that remainder
is non-blank: reconstruction holds modulo blank-line suppression and
modulo trimming of the final unterminated line. -/
theorem framer_reconstruction_amended {α : Type} (kind : String) (w : Str) :
    framerRun (α := α) kind w =
      ((splitNl w).dropLast.filter (fun l => !isBlank l)).map
        (Event.output kind) ++
        (if isBlank ((splitNl w).getLastD []) then []
         else [Event.output kind (pyStrip ((splitNl w).getLastD []))]) ∧
    (framerRun (α := α) kind w).all (nonblankOutput kind) = true := by
  constructor
  · simp [framerRun, _LineEmitter.write, _LineEmitter.flush]
  · rw [List.all_eq_true]
    intro ev hev
    simp only [framerRun, List.mem_append] at hev
    rcases hev with hev | hev
    · simp only [_LineEmitter.write, List.mem_map] at hev
      obtain ⟨l, hl, rfl⟩ := hev
      rw [List.mem_filter] at hl
      simp [nonblankOutput, hl.2]
    · simp only [_LineEmitter.write, _LineEmitter.flush] at hev
      by_cases hb : isBlank ((splitNl ([] ++ w)).getLastD [])
      · rw [if_pos hb] at hev
        exact absurd hev (List.not_mem_nil ev)
      · rw [if_neg hb] at hev
        rw [List.mem_singleton.mp hev]
        simp only [nonblankOutput, isBlank_pyStrip]
        simpa [List.getLastD_eq_getLast?] using Bool.eq_false_iff.mpr hb

/-- Claim C9: flush always leaves the internal buffer empty, even when
the buffered content is whitespace-only and no event is emitted, and a
second consecutive flush emits no event and keeps the buffer empty. -/
theorem flush_clears_and_idempotent {α : Type} (e : _LineEmitter) :
    (e.flush (α := α)).1._buf = [] ∧
    (isBlank e._buf = true → (e.flush (α := α)).2 = []) ∧
    ((e.flush (α := α)).1.flush (α := α)).2 = [] ∧
    ((e.flush (α := α)).1.flush (α := α)).1._buf = [] := by
  refine ⟨rfl, ?_, ?_, rfl⟩
  · intro hb
    simp [_LineEmitter.flush, hb]
  · simp [_LineEmitter.flush, show isBlank ([] : Str) = true from rfl]

theorem flush_clears_and_idempotent_witness :
    (_LineEmitter.flush (α := Nat) { kind := "stdout", _buf := [' '] }).2 =
      [] ∧
    (_LineEmitter.flush (α := Nat) { kind := "stdout", _buf := [' '] }).1._buf =
      [] :=
  ⟨(flush_clears_and_idempotent (α := Nat)
      { kind := "stdout", _buf := [' '] }).2.1 (by decide),
   (flush_clears_and_idempotent (α := Nat)
      { kind := "stdout", _buf := [' '] }).1⟩

/-- Claim C7: the non-streaming entry point (modelled from the spec,
since none exists in the sources) performs the same loader and runner
steps and returns the final mapping whose result field is exactly the
payload of the result event of the corresponding stream and whose error
field is exactly the message of the error event of that stream, with no
event broker involved. -/
theorem run_script_sync_agrees_with_stream {π α : Type}
    (avail : ModuleAvail π α) (st : ImportState π α) (p : String)
    (params : π) (lang : String) :
    (∀ v : α, (run_script avail st p params lang).2.result = some v ↔
      Event.result v ∈ run_script_stream avail st p params lang) ∧
    (∀ m : String, (run_script avail st p params lang).2.error = some m ↔
      Event.error m ∈ run_script_stream avail st p params lang) := by
  rw [stream_eq_runner]
  rcases runner_cases avail st p params lang with
    ⟨e, hres, hr⟩ | ⟨f, v0, hres, hout, hr⟩ | ⟨f, e, hres, hout, hr⟩
  · rw [hr]
    constructor
    · intro v
      constructor
      · intro hv
        simp [run_script, hres] at hv
      · intro hv
        simp at hv
    · intro m
      constructor
      · intro hm
        simp only [run_script, hres] at hm
        simp only [Option.some.injEq] at hm
        simp [← hm]
      · intro hm
        simp at hm
        simp [run_script, hres, hm]
  · rw [hr]
    have hcap := captureWrites_all_output (α := α) (f params lang).writes
    have hofl := flush_all_output (α := α)
      (captureWrites (α := α) (f params lang).writes).out
    have hefl := flush_all_output (α := α)
      (captureWrites (α := α) (f params lang).writes).err
    constructor
    · intro v
      constructor
      · intro hv
        simp only [run_script, hres, hout, Option.some.injEq] at hv
        subst hv
        simp
      · intro hv
        simp only [List.mem_append] at hv
        rcases hv with ((hv | hv) | hv) | hv
        · exact absurd hv ((not_mem_of_all_output _ hcap).1 v)
        · exact absurd hv ((not_mem_of_all_output _ hofl).1 v)
        · exact absurd hv ((not_mem_of_all_output _ hefl).1 v)
        · simp only [List.mem_cons, List.mem_singleton] at hv
          rcases hv with hv | hv
          · have := Event.result.inj hv
            subst this
            simp [run_script, hres, hout]
          · exact absurd hv (by simp)
    · intro m
      constructor
      · intro hm
        simp [run_script, hres, hout] at hm
      · intro hm
        simp only [List.mem_append] at hm
        rcases hm with ((hm | hm) | hm) | hm
        · exact absurd hm ((not_mem_of_all_output _ hcap).2.1 m)
        · exact absurd hm ((not_mem_of_all_output _ hofl).2.1 m)
        · exact absurd hm ((not_mem_of_all_output _ hefl).2.1 m)
        · simp at hm
  · rw [hr]
    have hcap := captureWrites_all_output (α := α) (f params lang).writes
    constructor
    · intro v
      constructor
      · intro hv
        simp [run_script, hres, hout] at hv
      · intro hv
        simp only [List.mem_append] at hv
        rcases hv with hv | hv
        · exact absurd hv ((not_mem_of_all_output _ hcap).1 v)
        · simp at hv
    · intro m
      constructor
      · intro hm
        simp only [run_script, hres, hout] at hm
        simp only [Option.some.injEq] at hm
        simp [← hm]
      · intro hm
        simp only [List.mem_append] at hm
        rcases hm with hm | hm
        · exact absurd hm ((not_mem_of_all_output _ hcap).2.1 m)
        · simp at hm
          simp [run_script, hres, hout, hm]

end FinRobotSpec
